import Mathlib

/-!
Verification of the particle batch container (`src/particles/ParticleContainer.js`)
and the rope/ribbon mesh generator (`Rope`, `src/unnamed/part_000`) of this
repository, as a shallow embedding in Lean 4.

JS numbers appearing in geometric computations are modelled as real numbers
(`ℝ`); integer quantities (sizes, indices, batch counters) are modelled as `ℕ`.
The `Uint16Array` index buffer of the rope keeps its 16-bit store semantics
(values are truncated with `% 65536` on write, as `Uint16Array` does); the
`Float32Array` buffers are idealised as exact reals.  JS `x || 15000` default
arguments are modelled with `Option ℕ` (absent or falsy zero both fall back to
the default).
-/

set_option autoImplicit false
set_option linter.unusedVariables false

namespace Pixi

/-! ### ParticleContainer: data model -/

/-- A GPU buffer group handle, tracking only whether `destroy()` was called on
it (`destroyed`). -/
structure GLBuffer where
  destroyed : Bool
deriving DecidableEq, Repr

/-- The shared image source (`baseTexture`): only its `hasLoaded` flag matters
to the container. -/
structure BaseTexture where
  hasLoaded : Bool
deriving DecidableEq, Repr

/-- A child's `_texture`, exposing its `baseTexture`. -/
structure Tex where
  baseTexture : BaseTexture
deriving DecidableEq, Repr

/-- A child element: the container only reads `child._texture`. -/
structure Child where
  _texture : Tex
deriving DecidableEq, Repr

/-- The argument object of `setProperties`: each field is `none` when the key
is absent from the object, and `some b` when the key is present with truthiness
`b` (the JS `!!` coercion). -/
structure PropsArg where
  scale : Option Bool := none
  position : Option Bool := none
  rotation : Option Bool := none
  uvs : Option Bool := none
  alpha : Option Bool := none
deriving DecidableEq, Repr

/-- Observable state of a `ParticleContainer`.

`_properties` and `_buffers` are `Option`-valued because `destroy()` sets them
to `null` (`_buffers` starts as JS `undefined`: it is never assigned by the
constructor, which only creates `_glBuffers`).  `updateCallbackArmed` records
a pending one-shot `baseTexture.once('update', ...)` subscription, and
`rendered` records that the render call delegated to the particle plugin. -/
structure PCState where
  _properties : Option (List Bool)
  _maxSize : ℕ
  _batchSize : ℕ
  _glBuffers : List GLBuffer
  _buffers : Option (List GLBuffer)
  _bufferToUpdate : ℕ
  baseTexture : Option BaseTexture
  visible : Bool
  worldAlpha : ℚ
  renderable : Bool
  children : List Child
  updateCallbackArmed : Bool
  rendered : Bool
deriving DecidableEq, Repr

/-- JS `x || 15000` on an optional numeric argument: absent and `0` both give
the default. -/
def orDefault (x : Option ℕ) (d : ℕ) : ℕ :=
  match x with
  | none => d
  | some 0 => d
  | some n => n

/-- `ParticleContainer.prototype.setProperties`, acting on the `_properties`
array `[scale, position, rotation, uvs, alpha]`.  Each slot is overwritten with
the coerced value when the key is present and kept otherwise; a missing
argument object leaves the array untouched. -/
def setProperties (props : List Bool) (properties : Option PropsArg) : List Bool :=
  match properties with
  | none => props
  | some p =>
    let props := props.set 0 (match p.scale with | some b => b | none => props.getD 0 false)
    let props := props.set 1 (match p.position with | some b => b | none => props.getD 1 false)
    let props := props.set 2 (match p.rotation with | some b => b | none => props.getD 2 false)
    let props := props.set 3 (match p.uvs with | some b => b | none => props.getD 3 false)
    let props := props.set 4 (match p.alpha with | some b => b | none => props.getD 4 false)
    props

/-- The `ParticleContainer` constructor.  `batchSize` is defaulted, clamped to
the 16384 hardware ceiling, then clamped to the (defaulted) `maxSize`; the
property flags start as `[false, true, false, false, false]` and are merged
with the `properties` argument via `setProperties`.  Container-inherited
fields start visible, renderable, with world alpha 1 and no children. -/
def mkParticleContainer (maxSize : Option ℕ) (properties : Option PropsArg)
    (batchSize : Option ℕ) : PCState :=
  let batchSize := orDefault batchSize 15000
  let maxSize := orDefault maxSize 15000
  let maxBatchSize := 16384
  let batchSize := if batchSize > maxBatchSize then maxBatchSize else batchSize
  let batchSize := if batchSize > maxSize then maxSize else batchSize
  { _properties := some (setProperties [false, true, false, false, false] properties)
    _maxSize := maxSize
    _batchSize := batchSize
    _glBuffers := []
    _buffers := none
    _bufferToUpdate := 0
    baseTexture := none
    visible := true
    worldAlpha := 1
    renderable := true
    children := []
    updateCallbackArmed := false
    rendered := false }

/-- `ParticleContainer.prototype.onChildrenChange`: the touched element index
is converted to its owning batch index and `_bufferToUpdate` is lowered to it
when smaller. -/
def onChildrenChange (st : PCState) (smallestChildIndex : ℕ) : PCState :=
  let bufferIndex := smallestChildIndex / st._batchSize
  if bufferIndex < st._bufferToUpdate then { st with _bufferToUpdate := bufferIndex } else st

/-- `ParticleContainer.prototype.renderWebGL`: skip when invisible, fully
transparent, empty or unrenderable; on first render capture the base texture
from the first child and, when it has not loaded, arm the one-shot `update`
callback; finally delegate to the particle render plugin (recorded by the
`rendered` flag). -/
def renderWebGL (st : PCState) : PCState :=
  if st.visible = false ∨ st.worldAlpha ≤ 0 ∨ st.children.length = 0 ∨ st.renderable = false then
    st
  else
    let st :=
      match st.baseTexture, st.children with
      | none, child :: _ =>
        let bt := child._texture.baseTexture
        let st := { st with baseTexture := some bt }
        if bt.hasLoaded = false then { st with updateCallbackArmed := true } else st
      | _, _ => st
    { st with rendered := true }

/-- Firing of the base texture's `update` event: when the one-shot callback is
armed it is dropped (`once`) and runs `this.onChildrenChange(0)`; otherwise
nothing happens. -/
def fireBaseTextureUpdate (st : PCState) : PCState :=
  if st.updateCallbackArmed then
    onChildrenChange { st with updateCallbackArmed := false } 0
  else st

/-- `ParticleContainer.prototype.destroy`: iterates `this._buffers` (when it
is non-null) destroying each entry, then nulls `_properties` and `_buffers`.
Note the constructor only ever creates `_glBuffers`; `_buffers` is never
assigned anywhere else in the class. -/
def destroy (st : PCState) : PCState :=
  let st :=
    match st._buffers with
    | some bufs =>
      { st with _buffers := some (bufs.map (fun (b : GLBuffer) => { b with destroyed := true })) }
    | none => st
  { st with _properties := none, _buffers := none }

/-! ### Rope: data model -/

/-- A 2D point (`PIXI.Point`), with real coordinates. -/
structure Point where
  x : ℝ
  y : ℝ

/-- The corners of the texture's resolved UV rectangle that `Rope.refresh`
reads (`_texture._uvs.x0/y0/x2/y2`). -/
structure TextureUvs where
  x0 : ℝ
  y0 : ℝ
  x2 : ℝ
  y2 : ℝ

/-- The three statically derived buffers of a rope.  `uvs` and `colors` are
`Float32Array`s (idealised as reals); `indices` is a `Uint16Array`, so its
stored values live in `[0, 65536)`. -/
structure RopeBuffers where
  uvs : List ℝ
  colors : List ℝ
  indices : List ℕ

/-- The buffers as allocated by the `Rope` constructor: zero-filled typed
arrays of sizes `4N`, `2N`, `2N` for `N` points. -/
def ropeInitBuffers (points : List Point) : RopeBuffers :=
  { uvs := List.replicate (points.length * 4) 0
    colors := List.replicate (points.length * 2) 0
    indices := List.replicate (points.length * 2) 0 }

/-- The loop of `Rope.refresh` for `i = 1, ..., total - 1` (`rem` counts the
remaining iterations; the loop body reads only `i`, `total`, `offset` and
`factor` — the `point = points[i]` read in the source is dead).  Stores into
the `Uint16Array` index buffer truncate to 16 bits. -/
noncomputable def refreshLoop (offset factor : Point) (total : ℕ) :
    ℕ → ℕ → List ℝ → List ℝ → List ℕ → RopeBuffers
  | 0, _, uvs, colors, indices => { uvs := uvs, colors := colors, indices := indices }
  | rem + 1, i, uvs, colors, indices =>
    let amount : ℝ := (i : ℝ) / ((total : ℝ) - 1)
    let uvs := uvs.set (i * 4) (amount * factor.x + offset.x)
    let uvs := uvs.set (i * 4 + 1) (0 + offset.y)
    let uvs := uvs.set (i * 4 + 2) (amount * factor.x + offset.x)
    let uvs := uvs.set (i * 4 + 3) (1 * factor.y + offset.y)
    let colors := colors.set (i * 2) 1
    let colors := colors.set (i * 2 + 1) 1
    let indices := indices.set (i * 2) ((i * 2) % 65536)
    let indices := indices.set (i * 2 + 1) ((i * 2 + 1) % 65536)
    refreshLoop offset factor total rem (i + 1) uvs colors indices

/-- `Rope.prototype.refresh`: no-op when there are no points or the texture's
UV rectangle is unresolved; otherwise writes the cross-section at point 0 and
runs the loop over points `1, ..., N - 1`. -/
noncomputable def refresh (texUvs : Option TextureUvs) (points : List Point) (b : RopeBuffers) : RopeBuffers :=
  match texUvs with
  | none => b
  | some t =>
    if points.length < 1 then b
    else
      let offset : Point := ⟨t.x0, t.y0⟩
      let factor : Point := ⟨t.x2 - t.x0, t.y2 - t.y0⟩
      let uvs := b.uvs.set 0 (0 + offset.x)
      let uvs := uvs.set 1 (0 + offset.y)
      let uvs := uvs.set 2 (0 + offset.x)
      let uvs := uvs.set 3 (1 * factor.y + offset.y)
      let colors := b.colors.set 0 1
      let colors := colors.set 1 1
      let indices := b.indices.set 0 0
      let indices := indices.set 1 1
      refreshLoop offset factor points.length (points.length - 1) 1 uvs colors indices

/-- `points[i+1]` when `i < points.length - 1`, else `points[i]` itself: the
`nextPoint` selection of `Rope.updateTransform`, phrased on the list suffix
that starts at the current point. -/
def nextOf (point : Point) (rest : List Point) : Point :=
  match rest with
  | [] => point
  | q :: _ => q

/-- The perpendicular computation of the `Rope.updateTransform` loop body:
rotate the tangent `nextPoint - lastPoint` by 90°, normalize by its magnitude
(no zero-length guard: a zero divisor follows the Lean convention
`x / 0 = 0`), and scale by `num = texture.height / 2`. -/
noncomputable def ropePerpScaled (texHeight : ℝ) (lastPoint nextPoint : Point) : ℝ × ℝ :=
  let perpY := -(nextPoint.x - lastPoint.x)
  let perpX := nextPoint.y - lastPoint.y
  let perpLength := Real.sqrt (perpX * perpX + perpY * perpY)
  let num := texHeight / 2
  let perpX := perpX / perpLength
  let perpY := perpY / perpLength
  let perpX := perpX * num
  let perpY := perpY * num
  (perpX, perpY)

/-- The loop of `Rope.updateTransform`, iterating the point list with the
running `lastPoint` and writing four vertex scalars per point.  The clamped
`ratio` is computed exactly as in the source and never used afterwards. -/
noncomputable def updateTransformGo (texHeight : ℝ) (total : ℕ) :
    List Point → ℕ → Point → List ℝ → List ℝ
  | [], _, _, vertices => vertices
  | point :: rest, i, lastPoint, vertices =>
    let index := i * 4
    let nextPoint := nextOf point rest
    let ratio := (1 - ((i : ℝ) / ((total : ℝ) - 1))) * 10
    let ratio := if ratio > 1 then 1 else ratio
    let perp := ropePerpScaled texHeight lastPoint nextPoint
    let vertices := vertices.set index (point.x + perp.1)
    let vertices := vertices.set (index + 1) (point.y + perp.2)
    let vertices := vertices.set (index + 2) (point.x - perp.1)
    let vertices := vertices.set (index + 3) (point.y - perp.2)
    updateTransformGo texHeight total rest (i + 1) point vertices

/-- `Rope.prototype.updateTransform` restricted to its vertex derivation: the
vertex buffer (allocated as `Float32Array(4N)` by the constructor) after one
update pass over the current points. -/
noncomputable def updateTransform (texHeight : ℝ) (points : List Point) : List ℝ :=
  let vertices := List.replicate (points.length * 4) 0
  if points.length < 1 then vertices
  else updateTransformGo texHeight points.length points 0 (points.headD ⟨0, 0⟩) vertices

/-- Modelled from the spec: the same per-frame vertex derivation with the
dead per-point taper-ratio computation removed (the spec flags that ratio as
computed but never applied to the perpendicular scale). -/
noncomputable def updateTransformNoTaperGo (texHeight : ℝ) (total : ℕ) :
    List Point → ℕ → Point → List ℝ → List ℝ
  | [], _, _, vertices => vertices
  | point :: rest, i, lastPoint, vertices =>
    let index := i * 4
    let nextPoint := nextOf point rest
    let perp := ropePerpScaled texHeight lastPoint nextPoint
    let vertices := vertices.set index (point.x + perp.1)
    let vertices := vertices.set (index + 1) (point.y + perp.2)
    let vertices := vertices.set (index + 2) (point.x - perp.1)
    let vertices := vertices.set (index + 3) (point.y - perp.2)
    updateTransformNoTaperGo texHeight total rest (i + 1) point vertices

/-- Modelled from the spec: `updateTransform` with the taper computation
removed. -/
noncomputable def updateTransformNoTaper (texHeight : ℝ) (points : List Point) : List ℝ :=
  let vertices := List.replicate (points.length * 4) 0
  if points.length < 1 then vertices
  else updateTransformNoTaperGo texHeight points.length points 0 (points.headD ⟨0, 0⟩) vertices

/-- Guarded (Option-valued) embedding of the vertex-derivation loop: identical
to `updateTransformGo` except that the normalization step checks its divisor
and refuses (`none`) when `perpLength` is zero, instead of dividing by zero. -/
noncomputable def updateTransformGuardedGo (texHeight : ℝ) (total : ℕ) :
    List Point → ℕ → Point → List ℝ → Option (List ℝ)
  | [], _, _, vertices => some vertices
  | point :: rest, i, lastPoint, vertices =>
    let index := i * 4
    let nextPoint := nextOf point rest
    let perpY := -(nextPoint.x - lastPoint.x)
    let perpX := nextPoint.y - lastPoint.y
    let perpLength := Real.sqrt (perpX * perpX + perpY * perpY)
    if perpLength = 0 then none
    else
      let num := texHeight / 2
      let perpX := perpX / perpLength
      let perpY := perpY / perpLength
      let perpX := perpX * num
      let perpY := perpY * num
      let vertices := vertices.set index (point.x + perpX)
      let vertices := vertices.set (index + 1) (point.y + perpY)
      let vertices := vertices.set (index + 2) (point.x - perpX)
      let vertices := vertices.set (index + 3) (point.y - perpY)
      updateTransformGuardedGo texHeight total rest (i + 1) point vertices

/-- Guarded variant of `updateTransform`: `none` as soon as a zero-length
perpendicular would be normalized. -/
noncomputable def updateTransformGuarded (texHeight : ℝ) (points : List Point) :
    Option (List ℝ) :=
  let vertices := List.replicate (points.length * 4) 0
  if points.length < 1 then some vertices
  else updateTransformGuardedGo texHeight points.length points 0 (points.headD ⟨0, 0⟩) vertices

/-! ### Generic list helpers -/

theorem getD_set_self {α : Type _} (l : List α) (i : ℕ) (a d : α) (h : i < l.length) :
    (l.set i a).getD i d = a := by
  simp [List.getD_eq_getElem?_getD, List.getElem?_set_eq_of_lt _ h]

theorem getD_set_ne {α : Type _} (l : List α) (i j : ℕ) (a d : α) (h : i ≠ j) :
    (l.set i a).getD j d = l.getD j d := by
  simp [List.getD_eq_getElem?_getD, List.getElem?_set_ne h]

/-! ### ParticleContainer: claim theorems -/

theorem onChildrenChange_batchSize (st : PCState) (k : ℕ) :
    (onChildrenChange st k)._batchSize = st._batchSize := by
  simp only [onChildrenChange]
  split <;> rfl

theorem onChildrenChange_bufferToUpdate (st : PCState) (k : ℕ) :
    (onChildrenChange st k)._bufferToUpdate
      = min st._bufferToUpdate (k / st._batchSize) := by
  simp only [onChildrenChange]
  split <;> simp <;> omega

/-- C4: `onChildrenChange(k)` never increases the dirty floor: afterwards it
equals `min(previous floor, k / batchSize)` (floored division); consequently,
for `k1 < k2`, running `onChildrenChange(k2)` then `onChildrenChange(k1)`
leaves the floor at most `k1 / batchSize`. -/
theorem particle_onChildrenChange_min (st : PCState) (k : ℕ) (hb : 0 < st._batchSize) :
    (onChildrenChange st k)._bufferToUpdate
        = min st._bufferToUpdate (k / st._batchSize) ∧
      ∀ k1 k2 : ℕ, k1 < k2 →
        (onChildrenChange (onChildrenChange st k2) k1)._bufferToUpdate
          ≤ k1 / st._batchSize := by
  refine ⟨onChildrenChange_bufferToUpdate st k, fun k1 k2 _ => ?_⟩
  rw [onChildrenChange_bufferToUpdate, onChildrenChange_batchSize]
  exact min_le_right _ _

theorem particle_onChildrenChange_min_witness :
    (onChildrenChange (mkParticleContainer none none none) 30000)._bufferToUpdate
      = min (mkParticleContainer none none none)._bufferToUpdate
          (30000 / (mkParticleContainer none none none)._batchSize) :=
  (particle_onChildrenChange_min (mkParticleContainer none none none) 30000 (by decide)).1

/-- C1 counterexample: with `batchSize = 20000 > 16384` and the default
`maxSize` (15000), the stored batch size is 15000, not 16384: the `maxSize`
clamp runs after the hardware clamp, so the result is not independent of
`maxSize`. -/
theorem particle_batch_cap_cex :
    16384 < 20000 ∧ (mkParticleContainer none none (some 20000))._batchSize ≠ 16384 := by
  decide

/-- C1 (amended): for every constructor call whose (defaulted) `batchSize`
exceeds 16384, the stored batch size is `min 16384 maxSize` (with `maxSize`
defaulted); it equals 16384 only when `maxSize ≥ 16384`. -/
theorem particle_batch_cap (maxSize : Option ℕ) (properties : Option PropsArg)
    (batchSize : Option ℕ) (hb : 16384 < orDefault batchSize 15000) :
    (mkParticleContainer maxSize properties batchSize)._batchSize
      = min 16384 (orDefault maxSize 15000) := by
  simp only [mkParticleContainer]
  split_ifs <;> omega

theorem particle_batch_cap_witness :
    (mkParticleContainer none none (some 20000))._batchSize
      = min 16384 (orDefault none 15000) :=
  particle_batch_cap none none (some 20000) (by decide)

/-- C3 counterexample: with `maxSize = 17000` and `batchSize = 20000 > maxSize`
the stored batch size is 16384, not `maxSize`: the hardware clamp can undercut
`maxSize`. -/
theorem particle_batch_maxclamp_cex :
    17000 < 20000 ∧ (mkParticleContainer (some 17000) none (some 20000))._batchSize ≠ 17000 := by
  decide

theorem orDefault_pos (n d : ℕ) (h : 0 < n) : orDefault (some n) d = n := by
  cases n with
  | zero => omega
  | succ m => rfl

/-- C3 (amended): for every constructor call with positive `maxSize` and
`batchSize > maxSize`, the stored batch size is `min maxSize 16384`; in
particular `maxSize = 10`, `batchSize = 20` gives 10. -/
theorem particle_batch_maxclamp (maxSize : ℕ) (properties : Option PropsArg)
    (batchSize : ℕ) (hm : 0 < maxSize) (hb : maxSize < batchSize) :
    (mkParticleContainer (some maxSize) properties (some batchSize))._batchSize
      = min maxSize 16384 := by
  simp only [mkParticleContainer]
  rw [orDefault_pos maxSize 15000 hm, orDefault_pos batchSize 15000 (by omega)]
  split_ifs <;> omega

theorem particle_batch_maxclamp_witness :
    (mkParticleContainer (some 10) none (some 20))._batchSize = 10 := by
  have h := particle_batch_maxclamp 10 none 20 (by decide) (by decide)
  simpa using h

/-- C7: merging `{scale: true}` sets only slot 0 of the property-flag array;
in general any key absent from the `setProperties` argument leaves the
corresponding flag at its prior value. -/
theorem particle_setProperties_merge (props : List Bool) (h5 : props.length = 5) :
    ((setProperties props (some { scale := some true })).getD 0 false = true ∧
      ∀ j, j ≠ 0 →
        (setProperties props (some { scale := some true })).getD j false
          = props.getD j false) ∧
    ∀ p : PropsArg,
      (p.scale = none →
        (setProperties props (some p)).getD 0 false = props.getD 0 false) ∧
      (p.position = none →
        (setProperties props (some p)).getD 1 false = props.getD 1 false) ∧
      (p.rotation = none →
        (setProperties props (some p)).getD 2 false = props.getD 2 false) ∧
      (p.uvs = none →
        (setProperties props (some p)).getD 3 false = props.getD 3 false) ∧
      (p.alpha = none →
        (setProperties props (some p)).getD 4 false = props.getD 4 false) := by
  match props, h5 with
  | [a, b, c, d, e], _ =>
    refine ⟨⟨rfl, fun j hj => ?_⟩, fun p => ?_⟩
    · match j, hj with
      | 1, _ => rfl
      | 2, _ => rfl
      | 3, _ => rfl
      | 4, _ => rfl
      | (n + 5), _ => simp [setProperties, List.getD]
    · obtain ⟨ps, pp, pr, pu, pa⟩ := p
      refine ⟨fun h => ?_, fun h => ?_, fun h => ?_, fun h => ?_, fun h => ?_⟩ <;>
        (simp only at h; subst h; simp [setProperties])

theorem particle_setProperties_merge_witness :
    (setProperties [false, true, false, false, false]
        (some { scale := some true })).getD 1 false
      = [false, true, false, false, false].getD 1 false :=
  ((particle_setProperties_merge [false, true, false, false, false] rfl).1).2 1 (by decide)

/-- C2 (code bug): `destroy()` iterates the never-assigned `_buffers` field,
so a buffer group allocated in `_glBuffers` is not destroyed and the
`_glBuffers` list is left intact (only `_properties` and `_buffers` are
nulled); a second `destroy()` is a no-op. -/
theorem particle_destroy_misses_glBuffers :
    (destroy { mkParticleContainer none none none with
        _glBuffers := [{ destroyed := false }] })._glBuffers
        = [{ destroyed := false }] ∧
      (destroy { mkParticleContainer none none none with
        _glBuffers := [{ destroyed := false }] })._properties = none ∧
      destroy (destroy { mkParticleContainer none none none with
          _glBuffers := [{ destroyed := false }] })
        = destroy { mkParticleContainer none none none with
            _glBuffers := [{ destroyed := false }] } := by
  decide

/-- C9: first GPU render of a visible, renderable, non-empty container with
positive world alpha captures the base texture from the first child; when that
texture has not loaded, the one-shot `update` callback is armed, and firing it
disarms the callback and lowers the dirty floor to 0.  The render call is a
total function of the state (no error) and still delegates to the plugin. -/
theorem particle_first_render_unloaded (st : PCState) (c : Child) (cs : List Child)
    (hv : st.visible = true) (ha : 0 < st.worldAlpha) (hc : st.children = c :: cs)
    (hr : st.renderable = true) (hbt : st.baseTexture = none)
    (hl : c._texture.baseTexture.hasLoaded = false) (hbs : 0 < st._batchSize) :
    (renderWebGL st).baseTexture = some c._texture.baseTexture ∧
      (renderWebGL st).updateCallbackArmed = true ∧
      (renderWebGL st).rendered = true ∧
      (fireBaseTextureUpdate (renderWebGL st)).updateCallbackArmed = false ∧
      (fireBaseTextureUpdate (renderWebGL st))._bufferToUpdate = 0 := by
  have hguard : ¬(st.visible = false ∨ st.worldAlpha ≤ 0 ∨ st.children.length = 0 ∨
      st.renderable = false) := by
    simp [hv, hr, hc, not_le.mpr ha]
  rw [renderWebGL, if_neg hguard, hbt, hc]
  simp only [hl, fireBaseTextureUpdate, onChildrenChange]
  refine ⟨by simp, by simp, by simp, ?_, ?_⟩ <;> (simp; split <;> simp <;> omega)

theorem particle_first_render_unloaded_witness :
    (renderWebGL { mkParticleContainer none none none with
        children := [{ _texture := { baseTexture := { hasLoaded := false } } }] }).baseTexture
      = some { hasLoaded := false } := by
  have h := particle_first_render_unloaded
    { mkParticleContainer none none none with
        children := [{ _texture := { baseTexture := { hasLoaded := false } } }] }
    { _texture := { baseTexture := { hasLoaded := false } } } [] rfl (by decide) rfl rfl rfl
    rfl (by decide)
  exact h.1

/-- C10: the per-frame normalization has no zero-length guard: for the
single-point sequence the tangent is the zero vector, the divisor is zero, and
the guarded embedding of the derivation returns no value, while the unguarded
embedding still emits the 4 scalars of the point's cross-section. -/
theorem rope_normalize_zero_guard :
    updateTransformGuarded 20 [⟨0, 0⟩] = none ∧
      (updateTransform 20 [⟨0, 0⟩]).length = 4 := by
  constructor
  · simp only [updateTransformGuarded, updateTransformGuardedGo, nextOf]
    norm_num
  · simp only [updateTransform, updateTransformGo]
    simp

/-! ### Rope: taper-ratio dead code (C8) -/

theorem updateTransformGo_eq_noTaper (texHeight : ℝ) (total : ℕ) :
    ∀ (pts : List Point) (i : ℕ) (lastPoint : Point) (vertices : List ℝ),
      updateTransformGo texHeight total pts i lastPoint vertices
        = updateTransformNoTaperGo texHeight total pts i lastPoint vertices := by
  intro pts
  induction pts with
  | nil => intro i last vs; rfl
  | cons p rest ih =>
    intro i last vs
    simp only [updateTransformGo, updateTransformNoTaperGo]
    exact ih (i + 1) p _

/-- C8: the vertex derivation is independent of the per-point taper ratio:
removing the dead `ratio` computation yields exactly the same vertex buffer on
every input (the perpendicular scale is always `texture.height / 2`). -/
theorem rope_taper_ratio_unused (texHeight : ℝ) (points : List Point) :
    updateTransform texHeight points = updateTransformNoTaper texHeight points := by
  simp only [updateTransform, updateTransformNoTaper]
  split_ifs with h
  · rfl
  · exact updateTransformGo_eq_noTaper texHeight points.length points 0 _ _

/-! ### Rope: per-frame vertex derivation on a horizontal chain (C6) -/

/-- The chain condition used through the vertex loop: at every iteration the
tangent from the running `lastPoint` to the selected `nextPoint` has positive
x-component. -/
def HChain : Point → List Point → Prop
  | _, [] => True
  | last, p :: rest => last.x < (nextOf p rest).x ∧ HChain p rest

theorem HChain_cons (last p : Point) (rest : List Point) :
    HChain last (p :: rest) ↔ last.x < (nextOf p rest).x ∧ HChain p rest := Iff.rfl

theorem hchain_of_pairwise :
    ∀ (rest : List Point) (q last : Point),
      List.Pairwise (fun a b => a.x < b.x) (q :: rest) → last.x < q.x →
      HChain last (q :: rest) := by
  intro rest
  induction rest with
  | nil => intro q last hp hlt; exact ⟨hlt, trivial⟩
  | cons r rest ih =>
    intro q last hp hlt
    have hqr : q.x < r.x := (List.pairwise_cons.mp hp).1 r (by simp)
    exact ⟨lt_trans hlt hqr, ih r q (List.pairwise_cons.mp hp).2 hqr⟩

theorem ropePerpScaled_horizontal (texHeight c : ℝ) (last next : Point)
    (h1 : last.y = c) (h2 : next.y = c) (hlt : last.x < next.x) :
    ropePerpScaled texHeight last next = (0, -(texHeight / 2)) := by
  have hd : (0 : ℝ) < next.x - last.x := by linarith
  have hsq : (next.y - last.y) * (next.y - last.y)
        + -(next.x - last.x) * -(next.x - last.x)
      = (next.x - last.x) * (next.x - last.x) := by
    rw [h1, h2]; ring
  simp only [ropePerpScaled, hsq, Real.sqrt_mul_self hd.le]
  rw [h1, h2]
  have hne : next.x - last.x ≠ 0 := ne_of_gt hd
  field_simp
  ring

theorem updateTransformGo_length (texHeight : ℝ) (total : ℕ) :
    ∀ (pts : List Point) (i : ℕ) (last : Point) (vertices : List ℝ),
      (updateTransformGo texHeight total pts i last vertices).length
        = vertices.length := by
  intro pts
  induction pts with
  | nil => intro i last vs; rfl
  | cons p rest ih =>
    intro i last vs
    simp only [updateTransformGo]
    rw [ih]
    simp

theorem updateTransformGo_horizontal (texHeight c : ℝ) (total : ℕ) :
    ∀ (rest : List Point) (i : ℕ) (last : Point) (vertices : List ℝ),
      last.y = c → (∀ p ∈ rest, p.y = c) → HChain last rest →
      4 * (i + rest.length) ≤ vertices.length →
      (∀ k, k < 4 * i →
          (updateTransformGo texHeight total rest i last vertices).getD k 0
            = vertices.getD k 0) ∧
        ∀ j, j < rest.length →
          (updateTransformGo texHeight total rest i last vertices).getD (4 * (i + j)) 0
              = (rest.getD j ⟨0, 0⟩).x ∧
            (updateTransformGo texHeight total rest i last vertices).getD (4 * (i + j) + 1) 0
              = c - texHeight / 2 ∧
            (updateTransformGo texHeight total rest i last vertices).getD (4 * (i + j) + 2) 0
              = (rest.getD j ⟨0, 0⟩).x ∧
            (updateTransformGo texHeight total rest i last vertices).getD (4 * (i + j) + 3) 0
              = c + texHeight / 2 := by
  intro rest
  induction rest with
  | nil =>
    intro i last vertices _ _ _ _
    exact ⟨fun k _ => rfl, fun j hj => absurd hj (by simp)⟩
  | cons point rest2 ih =>
    intro i last vertices hlast hys hch hlen
    simp only [List.length_cons] at hlen
    obtain ⟨hnext, hch2⟩ := (HChain_cons last point rest2).mp hch
    have hpy : point.y = c := hys point (by simp)
    have hnexty : (nextOf point rest2).y = c := by
      cases rest2 with
      | nil => simpa [nextOf] using hpy
      | cons q r => exact hys q (by simp [nextOf])
    have hperp := ropePerpScaled_horizontal texHeight c last (nextOf point rest2)
      hlast hnexty hnext
    simp only [updateTransformGo, hperp]
    have hlen2 : 4 * (i + 1 + rest2.length)
        ≤ ((((vertices.set (i * 4) (point.x + 0)).set (i * 4 + 1)
              (point.y + -(texHeight / 2))).set (i * 4 + 2) (point.x - 0)).set
            (i * 4 + 3) (point.y - -(texHeight / 2))).length := by
      simp only [List.length_set]
      omega
    have hys2 : ∀ p ∈ rest2, p.y = c := fun p hp => hys p (by simp [hp])
    obtain ⟨ihpres, ihvals⟩ :=
      ih (i + 1) point
        ((((vertices.set (i * 4) (point.x + 0)).set (i * 4 + 1)
            (point.y + -(texHeight / 2))).set (i * 4 + 2) (point.x - 0)).set
          (i * 4 + 3) (point.y - -(texHeight / 2)))
        hpy hys2 hch2 hlen2
    have hb3 : i * 4 + 3 < (((vertices.set (i * 4) (point.x + 0)).set (i * 4 + 1)
        (point.y + -(texHeight / 2))).set (i * 4 + 2) (point.x - 0)).length := by
      simp only [List.length_set]; omega
    have hb2 : i * 4 + 2 < ((vertices.set (i * 4) (point.x + 0)).set (i * 4 + 1)
        (point.y + -(texHeight / 2))).length := by
      simp only [List.length_set]; omega
    have hb1 : i * 4 + 1 < (vertices.set (i * 4) (point.x + 0)).length := by
      simp only [List.length_set]; omega
    have hb0 : i * 4 < vertices.length := by omega
    constructor
    · intro k hk
      rw [ihpres k (by omega)]
      rw [getD_set_ne _ _ _ _ _ (by omega), getD_set_ne _ _ _ _ _ (by omega),
        getD_set_ne _ _ _ _ _ (by omega), getD_set_ne _ _ _ _ _ (by omega)]
    · intro j hj
      cases j with
      | zero =>
        have e0 : 4 * (i + 0) = i * 4 := by ring
        refine ⟨?_, ?_, ?_, ?_⟩
        · rw [e0, ihpres (i * 4) (by omega), getD_set_ne _ _ _ _ _ (by omega),
            getD_set_ne _ _ _ _ _ (by omega), getD_set_ne _ _ _ _ _ (by omega),
            getD_set_self _ _ _ _ hb0]
          simp
        · rw [show 4 * (i + 0) + 1 = i * 4 + 1 by ring,
            ihpres (i * 4 + 1) (by omega), getD_set_ne _ _ _ _ _ (by omega),
            getD_set_ne _ _ _ _ _ (by omega), getD_set_self _ _ _ _ hb1]
          rw [hpy]; ring
        · rw [show 4 * (i + 0) + 2 = i * 4 + 2 by ring,
            ihpres (i * 4 + 2) (by omega), getD_set_ne _ _ _ _ _ (by omega),
            getD_set_self _ _ _ _ hb2]
          simp
        · rw [show 4 * (i + 0) + 3 = i * 4 + 3 by ring,
            ihpres (i * 4 + 3) (by omega), getD_set_self _ _ _ _ hb3]
          rw [hpy]; ring
      | succ j2 =>
        have e1 : 4 * (i + (j2 + 1)) = 4 * (i + 1 + j2) := by ring
        have hj2 : j2 < rest2.length := by simpa using hj
        obtain ⟨w0, w1, w2, w3⟩ := ihvals j2 hj2
        rw [e1]
        exact ⟨by rw [w0]; simp, by rw [w1], by rw [w2]; simp, by rw [w3]⟩

/-- C6: for any point sequence with at least one point the per-frame vertex
derivation yields exactly `4N` scalars; for a straight horizontal chain of
distinct points (constant `y`, strictly increasing `x`, at least two points)
every emitted perpendicular is vertical with magnitude half the texture
height: point `i` yields the two vertices `(x_i, y - h/2)` and
`(x_i, y + h/2)`. -/
theorem rope_updateTransform_horizontal (texHeight c : ℝ) (pts : List Point)
    (h1 : 1 ≤ pts.length) :
    (updateTransform texHeight pts).length = 4 * pts.length ∧
      (2 ≤ pts.length → (∀ p ∈ pts, p.y = c) →
        pts.Pairwise (fun p q => p.x < q.x) →
        ∀ i, i < pts.length →
          (updateTransform texHeight pts).getD (4 * i) 0 = (pts.getD i ⟨0, 0⟩).x ∧
            (updateTransform texHeight pts).getD (4 * i + 1) 0 = c - texHeight / 2 ∧
            (updateTransform texHeight pts).getD (4 * i + 2) 0 = (pts.getD i ⟨0, 0⟩).x ∧
            (updateTransform texHeight pts).getD (4 * i + 3) 0 = c + texHeight / 2) := by
  have hnlt : ¬pts.length < 1 := by omega
  constructor
  · simp only [updateTransform, if_neg hnlt]
    rw [updateTransformGo_length]
    simp [Nat.mul_comm]
  · intro h2 hys hpw i hi
    match pts, h1, h2 with
    | a :: b :: rest, _, _ =>
      have hab : a.x < b.x := (List.pairwise_cons.mp hpw).1 b (by simp)
      have hch : HChain a (a :: b :: rest) := by
        rw [HChain_cons]
        exact ⟨by simpa [nextOf] using hab,
          hchain_of_pairwise rest b a (List.pairwise_cons.mp hpw).2 hab⟩
      have hay : a.y = c := hys a (by simp)
      have hlen : 4 * (0 + (a :: b :: rest).length)
          ≤ (List.replicate ((a :: b :: rest).length * 4) (0 : ℝ)).length := by
        simp; omega
      obtain ⟨_, hvals⟩ := updateTransformGo_horizontal texHeight c
        (a :: b :: rest).length (a :: b :: rest) 0 a
        (List.replicate ((a :: b :: rest).length * 4) 0) hay hys hch hlen
      have := hvals i (by simpa using hi)
      simp only [updateTransform, if_neg hnlt, List.headD]
      simpa using this

theorem rope_updateTransform_horizontal_witness :
    (updateTransform 20 [⟨0, 0⟩, ⟨50, 0⟩, ⟨100, 0⟩]).getD 4 0 = 50 ∧
      (updateTransform 20 [⟨0, 0⟩, ⟨50, 0⟩, ⟨100, 0⟩]).getD 5 0 = -10 ∧
      (updateTransform 20 [⟨0, 0⟩, ⟨50, 0⟩, ⟨100, 0⟩]).getD 6 0 = 50 ∧
      (updateTransform 20 [⟨0, 0⟩, ⟨50, 0⟩, ⟨100, 0⟩]).getD 7 0 = 10 := by
  have h := rope_updateTransform_horizontal 20 0 [⟨0, 0⟩, ⟨50, 0⟩, ⟨100, 0⟩] (by simp)
  have hv := h.2 (by simp)
    (by
      intro p hp
      simp only [List.mem_cons, List.mem_singleton] at hp
      rcases hp with h1 | h1 | h1 | h1 <;> (first | subst h1; rfl | cases h1))
    (by
      refine List.pairwise_cons.mpr ⟨?_, List.pairwise_cons.mpr ⟨?_, ?_⟩⟩
      · intro q hq
        simp only [List.mem_cons, List.mem_singleton] at hq
        rcases hq with h1 | h1 | h1 <;> (first | subst h1; norm_num | cases h1)
      · intro q hq
        simp only [List.mem_singleton] at hq
        subst hq; norm_num
      · simp)
    1 (by simp)
  obtain ⟨w0, w1, w2, w3⟩ := hv
  refine ⟨?_, ?_, ?_, ?_⟩
  · simpa using w0
  · have e : (0 : ℝ) - 20 / 2 = -10 := by norm_num
    simpa [e] using w1
  · simpa using w2
  · have e : (0 : ℝ) + 20 / 2 = 10 := by norm_num
    simpa [e] using w3


/-! ### Rope: static buffers derived by refresh (C5) -/

theorem refreshLoop_length (offset factor : Point) (total : ℕ) :
    ∀ (rem i : ℕ) (uvs colors : List ℝ) (indices : List ℕ),
      (refreshLoop offset factor total rem i uvs colors indices).uvs.length = uvs.length ∧
        (refreshLoop offset factor total rem i uvs colors indices).colors.length
          = colors.length ∧
        (refreshLoop offset factor total rem i uvs colors indices).indices.length
          = indices.length := by
  intro rem
  induction rem with
  | zero => intro i uvs colors indices; exact ⟨rfl, rfl, rfl⟩
  | succ rem ih =>
    intro i uvs colors indices
    simp only [refreshLoop]
    refine ⟨?_, ?_, ?_⟩
    · rw [(ih _ _ _ _).1]; simp
    · rw [(ih _ _ _ _).2.1]; simp
    · rw [(ih _ _ _ _).2.2]; simp

theorem refreshLoop_preserve (offset factor : Point) (total : ℕ) :
    ∀ (rem i : ℕ) (uvs colors : List ℝ) (indices : List ℕ),
      (∀ k, k < i * 4 →
        (refreshLoop offset factor total rem i uvs colors indices).uvs.getD k 0
          = uvs.getD k 0) ∧
      (∀ k, k < i * 2 →
        (refreshLoop offset factor total rem i uvs colors indices).colors.getD k 0
          = colors.getD k 0) ∧
      (∀ k, k < i * 2 →
        (refreshLoop offset factor total rem i uvs colors indices).indices.getD k 0
          = indices.getD k 0) := by
  intro rem
  induction rem with
  | zero => intro i uvs colors indices; exact ⟨fun _ _ => rfl, fun _ _ => rfl, fun _ _ => rfl⟩
  | succ rem ih =>
    intro i uvs colors indices
    simp only [refreshLoop]
    obtain ⟨ihu, ihc, ihi⟩ := ih (i + 1)
      ((((uvs.set (i * 4) (((i : ℝ) / ((total : ℝ) - 1)) * factor.x + offset.x)).set
          (i * 4 + 1) (0 + offset.y)).set (i * 4 + 2)
          (((i : ℝ) / ((total : ℝ) - 1)) * factor.x + offset.x)).set
        (i * 4 + 3) (1 * factor.y + offset.y))
      ((colors.set (i * 2) 1).set (i * 2 + 1) 1)
      ((indices.set (i * 2) ((i * 2) % 65536)).set (i * 2 + 1) ((i * 2 + 1) % 65536))
    refine ⟨?_, ?_, ?_⟩
    · intro k hk
      rw [ihu k (by omega), getD_set_ne _ _ _ _ _ (by omega),
        getD_set_ne _ _ _ _ _ (by omega), getD_set_ne _ _ _ _ _ (by omega),
        getD_set_ne _ _ _ _ _ (by omega)]
    · intro k hk
      rw [ihc k (by omega), getD_set_ne _ _ _ _ _ (by omega),
        getD_set_ne _ _ _ _ _ (by omega)]
    · intro k hk
      rw [ihi k (by omega), getD_set_ne _ _ _ _ _ (by omega),
        getD_set_ne _ _ _ _ _ (by omega)]

theorem refreshLoop_values (offset factor : Point) (total : ℕ) :
    ∀ (rem i : ℕ) (uvs colors : List ℝ) (indices : List ℕ),
      (i + rem) * 4 ≤ uvs.length → (i + rem) * 2 ≤ colors.length →
      (i + rem) * 2 ≤ indices.length →
      ∀ j, i ≤ j → j < i + rem →
        ((refreshLoop offset factor total rem i uvs colors indices).uvs.getD (j * 4) 0
            = ((j : ℝ) / ((total : ℝ) - 1)) * factor.x + offset.x ∧
          (refreshLoop offset factor total rem i uvs colors indices).uvs.getD (j * 4 + 1) 0
            = 0 + offset.y ∧
          (refreshLoop offset factor total rem i uvs colors indices).uvs.getD (j * 4 + 2) 0
            = ((j : ℝ) / ((total : ℝ) - 1)) * factor.x + offset.x ∧
          (refreshLoop offset factor total rem i uvs colors indices).uvs.getD (j * 4 + 3) 0
            = 1 * factor.y + offset.y) ∧
        ((refreshLoop offset factor total rem i uvs colors indices).colors.getD (j * 2) 0
            = 1 ∧
          (refreshLoop offset factor total rem i uvs colors indices).colors.getD (j * 2 + 1) 0
            = 1) ∧
        ((refreshLoop offset factor total rem i uvs colors indices).indices.getD (j * 2) 0
            = (j * 2) % 65536 ∧
          (refreshLoop offset factor total rem i uvs colors indices).indices.getD
              (j * 2 + 1) 0
            = (j * 2 + 1) % 65536) := by
  intro rem
  induction rem with
  | zero =>
    intro i uvs colors indices _ _ _ j hij hlt
    omega
  | succ rem ih =>
    intro i uvs colors indices hu hc hi j hij hlt
    simp only [refreshLoop]
    by_cases hji : j = i
    · subst hji
      obtain ⟨pu, pc, pi⟩ := refreshLoop_preserve offset factor total rem (j + 1)
        ((((uvs.set (j * 4) (((j : ℝ) / ((total : ℝ) - 1)) * factor.x + offset.x)).set
            (j * 4 + 1) (0 + offset.y)).set (j * 4 + 2)
            (((j : ℝ) / ((total : ℝ) - 1)) * factor.x + offset.x)).set
          (j * 4 + 3) (1 * factor.y + offset.y))
        ((colors.set (j * 2) 1).set (j * 2 + 1) 1)
        ((indices.set (j * 2) ((j * 2) % 65536)).set (j * 2 + 1) ((j * 2 + 1) % 65536))
      refine ⟨⟨?_, ?_, ?_, ?_⟩, ⟨?_, ?_⟩, ⟨?_, ?_⟩⟩
      · rw [pu (j * 4) (by omega), getD_set_ne _ _ _ _ _ (by omega),
          getD_set_ne _ _ _ _ _ (by omega), getD_set_ne _ _ _ _ _ (by omega),
          getD_set_self _ _ _ _ (by omega)]
      · rw [pu (j * 4 + 1) (by omega), getD_set_ne _ _ _ _ _ (by omega),
          getD_set_ne _ _ _ _ _ (by omega),
          getD_set_self _ _ _ _ (by simp only [List.length_set]; omega)]
      · rw [pu (j * 4 + 2) (by omega), getD_set_ne _ _ _ _ _ (by omega),
          getD_set_self _ _ _ _ (by simp only [List.length_set]; omega)]
      · rw [pu (j * 4 + 3) (by omega),
          getD_set_self _ _ _ _ (by simp only [List.length_set]; omega)]
      · rw [pc (j * 2) (by omega), getD_set_ne _ _ _ _ _ (by omega),
          getD_set_self _ _ _ _ (by omega)]
      · rw [pc (j * 2 + 1) (by omega),
          getD_set_self _ _ _ _ (by simp only [List.length_set]; omega)]
      · rw [pi (j * 2) (by omega), getD_set_ne _ _ _ _ _ (by omega),
          getD_set_self _ _ _ _ (by omega)]
      · rw [pi (j * 2 + 1) (by omega),
          getD_set_self _ _ _ _ (by simp only [List.length_set]; omega)]
    · exact ih (i + 1) _ _ _
        (by simp only [List.length_set]; omega)
        (by simp only [List.length_set]; omega)
        (by simp only [List.length_set]; omega)
        j (by omega) (by omega)

theorem refresh_indices (t : TextureUvs) (pts : List Point) (h1 : 1 ≤ pts.length) :
    ∀ i, i < pts.length →
      (refresh (some t) pts (ropeInitBuffers pts)).indices.getD (2 * i) 0
          = (2 * i) % 65536 ∧
        (refresh (some t) pts (ropeInitBuffers pts)).indices.getD (2 * i + 1) 0
          = (2 * i + 1) % 65536 := by
  intro i hi
  have hnlt : ¬pts.length < 1 := by omega
  simp only [refresh, ropeInitBuffers, if_neg hnlt]
  by_cases hi0 : i = 0
  · subst hi0
    obtain ⟨pu, pc, pi⟩ := refreshLoop_preserve _ _ _ _ _ _ _ _
    rw [show 2 * 0 = 0 by ring, show 2 * 0 + 1 = 1 by ring]
    constructor
    · rw [pi 0 (by omega), getD_set_ne _ _ _ _ _ (by omega),
        getD_set_self _ _ _ _ (by simp; omega)]
    · rw [pi 1 (by omega), getD_set_self _ _ _ _ (by simp; omega)]
  · have hv := refreshLoop_values ⟨t.x0, t.y0⟩ ⟨t.x2 - t.x0, t.y2 - t.y0⟩ pts.length
      (pts.length - 1) 1
      (((((List.replicate (pts.length * 4) (0 : ℝ)).set 0 (0 + t.x0)).set 1
          (0 + t.y0)).set 2 (0 + t.x0)).set 3 (1 * (t.y2 - t.y0) + t.y0))
      (((List.replicate (pts.length * 2) (0 : ℝ)).set 0 1).set 1 1)
      (((List.replicate (pts.length * 2) (0 : ℕ)).set 0 0).set 1 1)
      (by simp only [List.length_set, List.length_replicate]; omega)
      (by simp only [List.length_set, List.length_replicate]; omega)
      (by simp only [List.length_set, List.length_replicate]; omega)
      i (by omega) (by omega)
    obtain ⟨_, _, hvi⟩ := hv
    rw [show 2 * i = i * 2 by ring, show i * 2 + 1 = i * 2 + 1 by ring]
    exact hvi

theorem refresh_values_zero (t : TextureUvs) (pts : List Point) (h1 : 1 ≤ pts.length) :
    (refresh (some t) pts (ropeInitBuffers pts)).uvs.getD 0 0 = t.x0 ∧
      (refresh (some t) pts (ropeInitBuffers pts)).uvs.getD 1 0 = t.y0 ∧
      (refresh (some t) pts (ropeInitBuffers pts)).uvs.getD 2 0 = t.x0 ∧
      (refresh (some t) pts (ropeInitBuffers pts)).uvs.getD 3 0 = (t.y2 - t.y0) + t.y0 ∧
      (refresh (some t) pts (ropeInitBuffers pts)).colors.getD 0 0 = 1 ∧
      (refresh (some t) pts (ropeInitBuffers pts)).colors.getD 1 0 = 1 := by
  have hnlt : ¬pts.length < 1 := by omega
  simp only [refresh, ropeInitBuffers, if_neg hnlt]
  obtain ⟨pu, pc, pi⟩ := refreshLoop_preserve _ _ _ _ _ _ _ _
  refine ⟨?_, ?_, ?_, ?_, ?_, ?_⟩
  · rw [pu 0 (by omega), getD_set_ne _ _ _ _ _ (by omega), getD_set_ne _ _ _ _ _ (by omega),
      getD_set_ne _ _ _ _ _ (by omega),
      getD_set_self _ _ _ _ (by simp only [List.length_replicate]; omega)]
    ring
  · rw [pu 1 (by omega), getD_set_ne _ _ _ _ _ (by omega), getD_set_ne _ _ _ _ _ (by omega),
      getD_set_self _ _ _ _ (by simp only [List.length_set, List.length_replicate]; omega)]
    ring
  · rw [pu 2 (by omega), getD_set_ne _ _ _ _ _ (by omega),
      getD_set_self _ _ _ _ (by simp only [List.length_set, List.length_replicate]; omega)]
    ring
  · rw [pu 3 (by omega),
      getD_set_self _ _ _ _ (by simp only [List.length_set, List.length_replicate]; omega)]
    ring
  · rw [pc 0 (by omega), getD_set_ne _ _ _ _ _ (by omega),
      getD_set_self _ _ _ _ (by simp only [List.length_replicate]; omega)]
  · rw [pc 1 (by omega),
      getD_set_self _ _ _ _ (by simp only [List.length_set, List.length_replicate]; omega)]

theorem refresh_values_pos (t : TextureUvs) (pts : List Point) (h1 : 1 ≤ pts.length) :
    ∀ i, 1 ≤ i → i < pts.length →
      (refresh (some t) pts (ropeInitBuffers pts)).uvs.getD (4 * i) 0
          = ((i : ℝ) / ((pts.length : ℝ) - 1)) * (t.x2 - t.x0) + t.x0 ∧
        (refresh (some t) pts (ropeInitBuffers pts)).uvs.getD (4 * i + 1) 0 = t.y0 ∧
        (refresh (some t) pts (ropeInitBuffers pts)).uvs.getD (4 * i + 2) 0
          = ((i : ℝ) / ((pts.length : ℝ) - 1)) * (t.x2 - t.x0) + t.x0 ∧
        (refresh (some t) pts (ropeInitBuffers pts)).uvs.getD (4 * i + 3) 0
          = (t.y2 - t.y0) + t.y0 ∧
        (refresh (some t) pts (ropeInitBuffers pts)).colors.getD (2 * i) 0 = 1 ∧
        (refresh (some t) pts (ropeInitBuffers pts)).colors.getD (2 * i + 1) 0 = 1 := by
  intro i hi1 hi
  have hnlt : ¬pts.length < 1 := by omega
  simp only [refresh, ropeInitBuffers, if_neg hnlt]
  have hv := refreshLoop_values ⟨t.x0, t.y0⟩ ⟨t.x2 - t.x0, t.y2 - t.y0⟩ pts.length
    (pts.length - 1) 1
    (((((List.replicate (pts.length * 4) (0 : ℝ)).set 0 (0 + t.x0)).set 1
        (0 + t.y0)).set 2 (0 + t.x0)).set 3 (1 * (t.y2 - t.y0) + t.y0))
    (((List.replicate (pts.length * 2) (0 : ℝ)).set 0 1).set 1 1)
    (((List.replicate (pts.length * 2) (0 : ℕ)).set 0 0).set 1 1)
    (by simp only [List.length_set, List.length_replicate]; omega)
    (by simp only [List.length_set, List.length_replicate]; omega)
    (by simp only [List.length_set, List.length_replicate]; omega)
    i (by omega) (by omega)
  obtain ⟨⟨u0, u1, u2, u3⟩, ⟨c0, c1⟩, _⟩ := hv
  rw [show 4 * i = i * 4 by ring, show 2 * i = i * 2 by ring]
  refine ⟨?_, ?_, ?_, ?_, c0, c1⟩
  · simpa using u0
  · simpa using u1
  · simpa using u2
  · simpa using u3

/-- C5 (amended): for `N ≥ 1` points with a resolved UV rectangle, `refresh`
produces buffers of exactly `4N` uv scalars, `2N` color scalars and `2N`
indices, with `uvs[0] = offsetX`, `uvs[4i] = uvs[4i+2] = (i/(N-1))·scaleX +
offsetX` for `i ≥ 1`, `uvs[4i+1] = offsetY`, `uvs[4i+3] = scaleY + offsetY`,
every color scalar 1, and — since the index buffer is a `Uint16Array` —
`indices[2i] = (2i) mod 65536` and `indices[2i+1] = (2i+1) mod 65536` (equal
to `2i` and `2i+1` exactly when `2i+1 < 65536`). -/
theorem rope_refresh_static (t : TextureUvs) (pts : List Point) (h1 : 1 ≤ pts.length) :
    (refresh (some t) pts (ropeInitBuffers pts)).uvs.length = 4 * pts.length ∧
      (refresh (some t) pts (ropeInitBuffers pts)).colors.length = 2 * pts.length ∧
      (refresh (some t) pts (ropeInitBuffers pts)).indices.length = 2 * pts.length ∧
      (refresh (some t) pts (ropeInitBuffers pts)).uvs.getD 0 0 = t.x0 ∧
      (∀ i, 1 ≤ i → i < pts.length →
        (refresh (some t) pts (ropeInitBuffers pts)).uvs.getD (4 * i) 0
            = ((i : ℝ) / ((pts.length : ℝ) - 1)) * (t.x2 - t.x0) + t.x0 ∧
          (refresh (some t) pts (ropeInitBuffers pts)).uvs.getD (4 * i + 2) 0
            = ((i : ℝ) / ((pts.length : ℝ) - 1)) * (t.x2 - t.x0) + t.x0) ∧
      (∀ i, i < pts.length →
        (refresh (some t) pts (ropeInitBuffers pts)).uvs.getD (4 * i + 1) 0 = t.y0 ∧
          (refresh (some t) pts (ropeInitBuffers pts)).uvs.getD (4 * i + 3) 0
            = (t.y2 - t.y0) + t.y0) ∧
      (∀ k, k < 2 * pts.length →
        (refresh (some t) pts (ropeInitBuffers pts)).colors.getD k 0 = 1) ∧
      (∀ i, i < pts.length →
        (refresh (some t) pts (ropeInitBuffers pts)).indices.getD (2 * i) 0
            = (2 * i) % 65536 ∧
          (refresh (some t) pts (ropeInitBuffers pts)).indices.getD (2 * i + 1) 0
            = (2 * i + 1) % 65536) := by
  have hnlt : ¬pts.length < 1 := by omega
  obtain ⟨z0, z1, z2, z3, zc0, zc1⟩ := refresh_values_zero t pts h1
  refine ⟨?_, ?_, ?_, z0, ?_, ?_, ?_, refresh_indices t pts h1⟩
  · simp only [refresh, ropeInitBuffers, if_neg hnlt]
    rw [(refreshLoop_length _ _ _ _ _ _ _ _).1]
    simp only [List.length_set, List.length_replicate]
    ring
  · simp only [refresh, ropeInitBuffers, if_neg hnlt]
    rw [(refreshLoop_length _ _ _ _ _ _ _ _).2.1]
    simp only [List.length_set, List.length_replicate]
    ring
  · simp only [refresh, ropeInitBuffers, if_neg hnlt]
    rw [(refreshLoop_length _ _ _ _ _ _ _ _).2.2]
    simp only [List.length_set, List.length_replicate]
    ring
  · intro i hi1 hi
    obtain ⟨u0, _, u2, _, _, _⟩ := refresh_values_pos t pts h1 i hi1 hi
    exact ⟨u0, u2⟩
  · intro i hi
    by_cases hi0 : i = 0
    · subst hi0
      exact ⟨by simpa using z1, by simpa using z3⟩
    · obtain ⟨_, u1, _, u3, _, _⟩ := refresh_values_pos t pts h1 i (by omega) hi
      exact ⟨u1, u3⟩
  · intro k hk
    by_cases hk2 : k < 2
    · match k, hk2 with
      | 0, _ => exact zc0
      | 1, _ => exact zc1
    · obtain ⟨j, hj1, hj2, hjor⟩ :
          ∃ j, 1 ≤ j ∧ j < pts.length ∧ (k = 2 * j ∨ k = 2 * j + 1) :=
        ⟨k / 2, by omega, by omega, by omega⟩
      obtain ⟨_, _, _, _, c0, c1⟩ := refresh_values_pos t pts h1 j hj1 hj2
      rcases hjor with h | h <;> subst h
      · exact c0
      · exact c1

theorem rope_refresh_static_witness :
    (refresh (some ⟨0, 0, 1, 1⟩) [⟨0, 0⟩] (ropeInitBuffers [⟨0, 0⟩])).uvs.getD 0 0
        = (⟨0, 0, 1, 1⟩ : TextureUvs).x0 ∧
      (refresh (some ⟨0, 0, 1, 1⟩) [⟨0, 0⟩] (ropeInitBuffers [⟨0, 0⟩])).uvs.length = 4 :=
  ⟨(rope_refresh_static ⟨0, 0, 1, 1⟩ [⟨0, 0⟩] (by simp)).2.2.2.1,
    by simpa using (rope_refresh_static ⟨0, 0, 1, 1⟩ [⟨0, 0⟩] (by simp)).1⟩

/-- C5 counterexample: the index buffer is a `Uint16Array`, so for a rope with
32769 points the entry at position `2·32768 = 65536` stores
`65536 mod 2^16 = 0`, not `65536` as the claim's `indices[2i] = 2i` demands. -/
theorem rope_refresh_indices_wrap_cex :
    (refresh (some ⟨0, 0, 1, 1⟩) (List.replicate 32769 ⟨0, 0⟩)
          (ropeInitBuffers (List.replicate 32769 ⟨0, 0⟩))).indices.getD (2 * 32768) 0
        = 0 ∧
      2 * 32768 ≠ 0 := by
  refine ⟨?_, by decide⟩
  have h := (refresh_indices ⟨0, 0, 1, 1⟩ (List.replicate 32769 ⟨0, 0⟩)
    (by rw [List.length_replicate]; omega) 32768
    (by rw [List.length_replicate]; omega)).1
  exact h.trans (by norm_num)

end Pixi
